import Mathlib

/-!
Shallow embedding of the IBM 1130 emulator core (CPU state, executor,
assembler/disassembler) and proofs of the specification's claims about it.

Machine integers are embedded as `Nat` with explicit `% 2 ^ 16` where the
Rust code performs wrapping 16-bit arithmetic.  Mutation of `CpuState` is
embedded as explicit state passing; a fallible operation that mutates
nothing before its bounds check returns `Except CpuError CpuState`, while
`execute` (whose `?`-propagation can leave earlier mutations in place)
returns the final state together with an optional error.
-/

namespace IBM1130

/-- Number of 16-bit words in memory (4K words = 4096). -/
def MEMORY_SIZE : Nat := 4096

/-- Index Register 1 address (memory mapped). -/
def XR1_ADDR : Nat := 0x0001

/-- Index Register 2 address (memory mapped). -/
def XR2_ADDR : Nat := 0x0002

/-- Index Register 3 address (memory mapped). -/
def XR3_ADDR : Nat := 0x0003

/-- Program start address. -/
def PROGRAM_START : Nat := 0x0010

/-- CPU execution errors (`CpuError` in `src/cpu/state.rs`). -/
inductive CpuError where
  | MemoryOutOfBounds (addr : Nat)
  | Halted
  | InvalidInstruction (addr : Nat)
  | IarOutOfBounds (addr : Nat)
deriving DecidableEq

/-- Addressing modes (`AddressingMode` in `src/cpu/instruction.rs`). -/
inductive AddressingMode where
  | Direct
  | Indexed
deriving DecidableEq

/-- Branch conditions for BSC (`BranchCondition` in `src/cpu/instruction.rs`). -/
inductive BranchCondition where
  | Zero
  | NonZero
  | Positive
  | Negative
  | Overflow
  | Carry
deriving DecidableEq

/-- Instructions (`Instruction` in `src/cpu/instruction.rs`).  The `u16`
address fields and `u8` shift counts are embedded as `Nat`; the
well-formedness bounds that the Rust types carry intrinsically are stated
as side conditions where a theorem needs them. -/
inductive Instruction where
  | LD (addr : Nat) (mode : AddressingMode)
  | STO (addr : Nat) (mode : AddressingMode)
  | LDX (addr : Nat)
  | STX (addr : Nat)
  | A (addr : Nat) (mode : AddressingMode)
  | S (addr : Nat) (mode : AddressingMode)
  | AND (addr : Nat) (mode : AddressingMode)
  | OR (addr : Nat) (mode : AddressingMode)
  | SLA (count : Nat)
  | SRA (count : Nat)
  | BSC (addr : Nat) (condition : BranchCondition)
  | BSI (addr : Nat)
  | WAIT
  | NOP
deriving DecidableEq

/-- The CPU state (`CpuState` in `src/cpu/state.rs`).  The fixed 4096-word
memory array is embedded as a total function on addresses; every access
the code performs is bounds checked before indexing, so behaviour outside
`[0, MEMORY_SIZE)` is never consulted.  The `u64` counters are embedded as
`Nat`. -/
structure CpuState where
  acc : Nat
  ext : Nat
  iar : Nat
  carry : Bool
  overflow : Bool
  memory : Nat → Nat
  halted : Bool
  cycle_count : Nat
  instruction_count : Nat

/-- `CpuState::new`. -/
def CpuState.new : CpuState :=
  { acc := 0
    ext := 0
    iar := PROGRAM_START
    carry := false
    overflow := false
    memory := fun _ => 0
    halted := false
    cycle_count := 0
    instruction_count := 0 }

/-- `CpuState::reset`: memory is not cleared. -/
def CpuState.reset (s : CpuState) : CpuState :=
  { s with
    acc := 0
    ext := 0
    iar := PROGRAM_START
    carry := false
    overflow := false
    halted := false
    cycle_count := 0
    instruction_count := 0 }

/-- `CpuState::hard_reset`: reset, then clear memory. -/
def CpuState.hard_reset (s : CpuState) : CpuState :=
  { s.reset with memory := fun _ => 0 }

/-- `CpuState::set_iar`. -/
def CpuState.set_iar (s : CpuState) (addr : Nat) : Except CpuError CpuState :=
  if MEMORY_SIZE ≤ addr then .error (.IarOutOfBounds addr)
  else .ok { s with iar := addr }

/-- `CpuState::increment_iar`: `self.set_iar(self.iar.wrapping_add(1))`. -/
def CpuState.increment_iar (s : CpuState) : Except CpuError CpuState :=
  s.set_iar ((s.iar + 1) % 2 ^ 16)

/-- `CpuState::read_xr1`. -/
def CpuState.read_xr1 (s : CpuState) : Nat :=
  s.memory XR1_ADDR

/-- `CpuState::write_xr1`. -/
def CpuState.write_xr1 (s : CpuState) (value : Nat) : CpuState :=
  { s with memory := fun a => if a = XR1_ADDR then value else s.memory a }

/-- `CpuState::write_xr2`. -/
def CpuState.write_xr2 (s : CpuState) (value : Nat) : CpuState :=
  { s with memory := fun a => if a = XR2_ADDR then value else s.memory a }

/-- `CpuState::write_xr3`. -/
def CpuState.write_xr3 (s : CpuState) (value : Nat) : CpuState :=
  { s with memory := fun a => if a = XR3_ADDR then value else s.memory a }

/-- `CpuState::read_word`. -/
def CpuState.read_word (s : CpuState) (addr : Nat) : Except CpuError Nat :=
  if MEMORY_SIZE ≤ addr then .error (.MemoryOutOfBounds addr)
  else .ok (s.memory addr)

/-- `CpuState::write_word`. -/
def CpuState.write_word (s : CpuState) (addr value : Nat) : Except CpuError CpuState :=
  if MEMORY_SIZE ≤ addr then .error (.MemoryOutOfBounds addr)
  else .ok { s with memory := fun a => if a = addr then value else s.memory a }

/-- Copy a list of words into a memory function starting at `start`
(embeds the `copy_from_slice` in `CpuState::load_program`). -/
def writeRange (m : Nat → Nat) (start : Nat) : List Nat → (Nat → Nat)
  | [] => m
  | v :: vs => writeRange (fun a => if a = start then v else m a) (start + 1) vs

/-- `CpuState::load_program`. -/
def CpuState.load_program (s : CpuState) (start_addr : Nat) (data : List Nat) :
    Except CpuError CpuState :=
  if MEMORY_SIZE < start_addr + data.length then .error (.MemoryOutOfBounds start_addr)
  else .ok { s with memory := writeRange s.memory start_addr data }

/-- `CpuState::update_flags_add`. -/
def CpuState.update_flags_add (s : CpuState) (a b result : Nat) : CpuState :=
  let a_sign := decide (a &&& 0x8000 ≠ 0)
  let b_sign := decide (b &&& 0x8000 ≠ 0)
  let r_sign := decide (result &&& 0x8000 ≠ 0)
  { s with
    carry := decide (result < a)
    overflow := (a_sign == b_sign) && (a_sign != r_sign) }

/-- `CpuState::update_flags_sub`. -/
def CpuState.update_flags_sub (s : CpuState) (a b result : Nat) : CpuState :=
  let a_sign := decide (a &&& 0x8000 ≠ 0)
  let b_sign := decide (b &&& 0x8000 ≠ 0)
  let r_sign := decide (result &&& 0x8000 ≠ 0)
  { s with
    carry := decide (a < b)
    overflow := (a_sign != b_sign) && (a_sign != r_sign) }

/-- `CpuState::halt`. -/
def CpuState.halt (s : CpuState) : CpuState :=
  { s with halted := true }

/-- `CpuState::resume`. -/
def CpuState.resume (s : CpuState) : CpuState :=
  { s with halted := false }

/-- `CpuState::effective_address` (`src/cpu/executor.rs`): `wrapping_add`
of the base address and XR1 in the indexed mode. -/
def CpuState.effective_address (s : CpuState) (addr : Nat) (mode : AddressingMode) : Nat :=
  match mode with
  | .Direct => addr
  | .Indexed => (addr + s.read_xr1) % 2 ^ 16

/-- `CpuState::exec_ld`. -/
def CpuState.exec_ld (s : CpuState) (addr : Nat) (mode : AddressingMode) :
    CpuState × Option CpuError :=
  let ea := s.effective_address addr mode
  match s.read_word ea with
  | .error e => (s, some e)
  | .ok value => ({ s with acc := value }, none)

/-- `CpuState::exec_sto`. -/
def CpuState.exec_sto (s : CpuState) (addr : Nat) (mode : AddressingMode) :
    CpuState × Option CpuError :=
  let ea := s.effective_address addr mode
  match s.write_word ea s.acc with
  | .error e => (s, some e)
  | .ok s1 => (s1, none)

/-- `CpuState::exec_ldx`. -/
def CpuState.exec_ldx (s : CpuState) (addr : Nat) : CpuState × Option CpuError :=
  match s.read_word addr with
  | .error e => (s, some e)
  | .ok value => (s.write_xr1 value, none)

/-- `CpuState::exec_stx`. -/
def CpuState.exec_stx (s : CpuState) (addr : Nat) : CpuState × Option CpuError :=
  match s.write_word addr s.read_xr1 with
  | .error e => (s, some e)
  | .ok s1 => (s1, none)

/-- `CpuState::exec_add`: `wrapping_add` on the accumulator, then flag
update from the pre-instruction accumulator, operand and result. -/
def CpuState.exec_add (s : CpuState) (addr : Nat) (mode : AddressingMode) :
    CpuState × Option CpuError :=
  let ea := s.effective_address addr mode
  match s.read_word ea with
  | .error e => (s, some e)
  | .ok operand =>
    let acc := s.acc
    let result := (acc + operand) % 2 ^ 16
    (CpuState.update_flags_add { s with acc := result } acc operand result, none)

/-- `CpuState::exec_sub`: `wrapping_sub` on the accumulator (embedded as
adding the 16-bit complement of the operand), then flag update. -/
def CpuState.exec_sub (s : CpuState) (addr : Nat) (mode : AddressingMode) :
    CpuState × Option CpuError :=
  let ea := s.effective_address addr mode
  match s.read_word ea with
  | .error e => (s, some e)
  | .ok operand =>
    let acc := s.acc
    let result := (acc + (2 ^ 16 - operand % 2 ^ 16)) % 2 ^ 16
    (CpuState.update_flags_sub { s with acc := result } acc operand result, none)

/-- `CpuState::exec_and`. -/
def CpuState.exec_and (s : CpuState) (addr : Nat) (mode : AddressingMode) :
    CpuState × Option CpuError :=
  let ea := s.effective_address addr mode
  match s.read_word ea with
  | .error e => (s, some e)
  | .ok operand => ({ s with acc := s.acc &&& operand }, none)

/-- `CpuState::exec_or`. -/
def CpuState.exec_or (s : CpuState) (addr : Nat) (mode : AddressingMode) :
    CpuState × Option CpuError :=
  let ea := s.effective_address addr mode
  match s.read_word ea with
  | .error e => (s, some e)
  | .ok operand => ({ s with acc := s.acc ||| operand }, none)

/-- `CpuState::exec_sla`: embeds `acc << count` on `u16`.  A Rust shift
whose right operand reaches the bit width is an overflow; with overflow
checks off the shift amount is reduced modulo 16, so the effective count
is `count % 16`, and the result is truncated to 16 bits. -/
def CpuState.exec_sla (s : CpuState) (count : Nat) : CpuState :=
  { s with acc := (s.acc <<< (count % 16)) % 2 ^ 16 }

/-- `CpuState::exec_sra`: embeds `((acc as i16) >> count) as u16`.  The
shift amount is reduced modulo 16 as in `exec_sla`; the arithmetic
(sign-extending) right shift of a 16-bit value is embedded by widening a
negative accumulator with high one-bits before the logical shift, which
agrees with the signed floor division for every shift amount below 16. -/
def CpuState.exec_sra (s : CpuState) (count : Nat) : CpuState :=
  let widened := if 0x8000 ≤ s.acc then s.acc + 0xFFFF0000 else s.acc
  { s with acc := (widened >>> (count % 16)) % 2 ^ 16 }

/-- `CpuState::exec_bsc`: evaluate the condition against the accumulator
or flags; on a taken branch, `set_iar` to the target. -/
def CpuState.exec_bsc (s : CpuState) (addr : Nat) (condition : BranchCondition) :
    CpuState × Option CpuError :=
  let should_branch :=
    match condition with
    | .Zero => decide (s.acc = 0)
    | .NonZero => decide (s.acc ≠ 0)
    | .Positive => decide (0 < s.acc ∧ s.acc < 0x8000)
    | .Negative => decide (0x8000 ≤ s.acc)
    | .Overflow => s.overflow
    | .Carry => s.carry
  if should_branch then
    match s.set_iar addr with
    | .error e => (s, some e)
    | .ok s1 => (s1, none)
  else (s, none)

/-- `CpuState::exec_bsi`: store the current IAR at the target, then branch
to the wrapped `addr + 1`.  A failing `set_iar` after a successful
`write_word` leaves the memory write in place, exactly as the `?`
propagation does in the Rust code. -/
def CpuState.exec_bsi (s : CpuState) (addr : Nat) : CpuState × Option CpuError :=
  match s.write_word addr s.iar with
  | .error e => (s, some e)
  | .ok s1 =>
    match s1.set_iar ((addr + 1) % 2 ^ 16) with
    | .error e => (s1, some e)
    | .ok s2 => (s2, none)

/-- The per-variant match block inside `CpuState::execute`. -/
def CpuState.exec_effect (s : CpuState) : Instruction → CpuState × Option CpuError
  | .LD addr mode => s.exec_ld addr mode
  | .STO addr mode => s.exec_sto addr mode
  | .LDX addr => s.exec_ldx addr
  | .STX addr => s.exec_stx addr
  | .A addr mode => s.exec_add addr mode
  | .S addr mode => s.exec_sub addr mode
  | .AND addr mode => s.exec_and addr mode
  | .OR addr mode => s.exec_or addr mode
  | .SLA count => (s.exec_sla count, none)
  | .SRA count => (s.exec_sra count, none)
  | .BSC addr condition => s.exec_bsc addr condition
  | .BSI addr => s.exec_bsi addr
  | .WAIT => (s.halt, none)
  | .NOP => (s, none)

/-- `CpuState::execute`: reject when halted, run the instruction's effect,
and on success increment the instruction and cycle counters. -/
def CpuState.execute (s : CpuState) (instr : Instruction) : CpuState × Option CpuError :=
  if s.halted then (s, some .Halted)
  else
    match s.exec_effect instr with
    | (s1, some e) => (s1, some e)
    | (s1, none) =>
      ({ s1 with
          instruction_count := s1.instruction_count + 1
          cycle_count := s1.cycle_count + 1 }, none)

/-- Assembler errors (`AssemblerError` in `src/assembler.rs`), each
carrying the offending text fragment. -/
inductive AssemblerError where
  | InvalidMnemonic (text : String)
  | InvalidMode (text : String)
  | InvalidAddress (text : String)
  | InvalidOperand (text : String)
  | MissingOperand (text : String)
  | InvalidCondition (text : String)
  | InvalidShiftCount (text : String)
  | SyntaxError (text : String)
  | InvalidDataAddress (text : String)
  | InvalidDataValue (text : String)
deriving DecidableEq

/-- Mode bit of a mode-bearing instruction: `1` for `Indexed`, `0` for
`Direct` (the `matches!(mode, AddressingMode::Indexed)` tests in
`encode_instruction`). -/
def modeBit : AddressingMode → Nat
  | .Indexed => 1
  | .Direct => 0

/-- `encode_instruction` (`src/assembler.rs`): bits 15-12 opcode family,
bits 11-8 modifier (mode bit or branch condition), bits 7-0 the address
masked to `0xFF` or the shift count. -/
def encode_instruction : Instruction → Except AssemblerError Nat
  | .LD addr mode => .ok (0x1000 ||| (modeBit mode <<< 8) ||| (addr &&& 0xFF))
  | .STO addr mode => .ok (0x2000 ||| (modeBit mode <<< 8) ||| (addr &&& 0xFF))
  | .LDX addr => .ok (0x3000 ||| (addr &&& 0xFF))
  | .STX addr => .ok (0x4000 ||| (addr &&& 0xFF))
  | .A addr mode => .ok (0x5000 ||| (modeBit mode <<< 8) ||| (addr &&& 0xFF))
  | .S addr mode => .ok (0x6000 ||| (modeBit mode <<< 8) ||| (addr &&& 0xFF))
  | .AND addr mode => .ok (0x7000 ||| (modeBit mode <<< 8) ||| (addr &&& 0xFF))
  | .OR addr mode => .ok (0x8000 ||| (modeBit mode <<< 8) ||| (addr &&& 0xFF))
  | .SLA count => .ok (0x9000 ||| count)
  | .SRA count => .ok (0xA000 ||| count)
  | .BSC addr condition =>
    let cond_bits : Nat :=
      match condition with
      | .Zero => 0
      | .NonZero => 1
      | .Positive => 2
      | .Negative => 3
      | .Overflow => 4
      | .Carry => 5
    .ok (0xB000 ||| (cond_bits <<< 8) ||| (addr &&& 0xFF))
  | .BSI addr => .ok (0xC000 ||| (addr &&& 0xFF))
  | .WAIT => .ok 0xF000
  | .NOP => .ok 0x0000

/-- Uppercase hexadecimal rendering of a natural number (embeds the Rust
`{op:X}` format used in the decoder's error message). -/
def toHexUpper (n : Nat) : String :=
  String.mk ((Nat.toDigits 16 n).map Char.toUpper)

/-- Modifier-to-mode mapping used by every mode-bearing arm of
`decode_instruction`: `Indexed` exactly when the modifier nibble is `1`. -/
def decodeMode (modifier : Nat) : AddressingMode :=
  if modifier = 1 then .Indexed else .Direct

/-- `decode_instruction` (`src/assembler.rs`). -/
def decode_instruction (opcode : Nat) : Except AssemblerError Instruction :=
  let op := (opcode >>> 12) &&& 0xF
  let modifier := (opcode >>> 8) &&& 0xF
  let addr := opcode &&& 0xFF
  match op with
  | 0x0 => .ok .NOP
  | 0x1 => .ok (.LD addr (decodeMode modifier))
  | 0x2 => .ok (.STO addr (decodeMode modifier))
  | 0x3 => .ok (.LDX addr)
  | 0x4 => .ok (.STX addr)
  | 0x5 => .ok (.A addr (decodeMode modifier))
  | 0x6 => .ok (.S addr (decodeMode modifier))
  | 0x7 => .ok (.AND addr (decodeMode modifier))
  | 0x8 => .ok (.OR addr (decodeMode modifier))
  | 0x9 => .ok (.SLA (opcode &&& 0xFF))
  | 0xA => .ok (.SRA (opcode &&& 0xFF))
  | 0xB =>
    match modifier with
    | 0 => .ok (.BSC addr .Zero)
    | 1 => .ok (.BSC addr .NonZero)
    | 2 => .ok (.BSC addr .Positive)
    | 3 => .ok (.BSC addr .Negative)
    | 4 => .ok (.BSC addr .Overflow)
    | 5 => .ok (.BSC addr .Carry)
    | _ => .error (.InvalidCondition s!"Unknown condition code: {modifier}")
  | 0xC => .ok (.BSI addr)
  | 0xF => .ok .WAIT
  | _ => .error (.InvalidMnemonic ("Unknown opcode: 0x" ++ toHexUpper op))

/-- ASCII uppercase mapping.  Stands for Rust `to_uppercase`; the
assembler's directive and mnemonic comparisons only distinguish ASCII
letters, so the Unicode case mapping is embedded on the ASCII range. -/
def upChar (c : Char) : Char :=
  if 'a' ≤ c ∧ c ≤ 'z' then Char.ofNat (c.toNat - 32) else c

/-- ASCII whitespace.  Stands for Rust `char::is_whitespace` restricted
to the ASCII range (tab, line feed, vertical tab, form feed, carriage
return, space). -/
def isWs (c : Char) : Bool :=
  c = ' ' || c = '\t' || c = '\n' || c = '\x0b' || c = '\x0c' || c = '\r'

/-- Strip a line at the first `;` (the comment handling in
`Assembler::assemble`). -/
def stripComment (l : List Char) : List Char :=
  l.takeWhile (fun c => c ≠ ';')

/-- `str::trim`: drop leading and trailing whitespace. -/
def trimChars (l : List Char) : List Char :=
  ((l.dropWhile (isWs ·)).reverse.dropWhile (isWs ·)).reverse

/-- Accumulator-based splitter behind `splitWs` (the current word is held
reversed in `cur`). -/
def splitWsAux : List Char → List Char → List (List Char)
  | [], cur => if cur = [] then [] else [cur.reverse]
  | c :: cs, cur =>
    if isWs c then
      if cur = [] then splitWsAux cs []
      else cur.reverse :: splitWsAux cs []
    else splitWsAux cs (c :: cur)

/-- `str::split_whitespace`: maximal non-whitespace runs, in order. -/
def splitWs (l : List Char) : List (List Char) :=
  splitWsAux l []

/-- Value of one digit character in the given radix (embeds the digit
handling of Rust `from_str_radix`). -/
def digitVal (radix : Nat) (c : Char) : Option Nat :=
  let v :=
    if '0' ≤ c ∧ c ≤ '9' then some (c.toNat - '0'.toNat)
    else if 'a' ≤ c ∧ c ≤ 'z' then some (c.toNat - 'a'.toNat + 10)
    else if 'A' ≤ c ∧ c ≤ 'Z' then some (c.toNat - 'A'.toNat + 10)
    else none
  match v with
  | some d => if d < radix then some d else none
  | none => none

/-- Accumulate the value of a digit string, failing on any non-digit. -/
def parseDigits (radix : Nat) : List Char → Nat → Option Nat
  | [], acc => some acc
  | c :: cs, acc =>
    match digitVal radix c with
    | some d => parseDigits radix cs (acc * radix + d)
    | none => none

/-- Embeds `u16::from_str_radix` / `str::parse::<u16>` on ASCII input: an
optional leading `+`, then at least one digit, value within 16 bits (a
leading `-` is not stripped for an unsigned target type, so it fails as
an invalid digit). -/
def parseU16 (radix : Nat) (s : List Char) : Option Nat :=
  let digits :=
    match s with
    | '+' :: rest => rest
    | rest => rest
  match digits with
  | [] => none
  | _ =>
    match parseDigits radix digits 0 with
    | none => none
    | some v => if v ≤ 0xFFFF then some v else none

/-- Embeds `str::parse::<u8>` on ASCII input, as `parseU16` with the
8-bit range. -/
def parseU8 (s : List Char) : Option Nat :=
  let digits :=
    match s with
    | '+' :: rest => rest
    | rest => rest
  match digits with
  | [] => none
  | _ =>
    match parseDigits 10 digits 0 with
    | none => none
    | some v => if v ≤ 0xFF then some v else none

/-- `Assembler::parse_address`: `0x`/`0X` prefix selects hexadecimal,
otherwise decimal; malformed text fails with `InvalidAddress`. -/
def parse_address (s : List Char) : Except AssemblerError Nat :=
  match s with
  | '0' :: 'x' :: hex =>
    match parseU16 16 hex with
    | some v => .ok v
    | none => .error (.InvalidAddress (String.mk s))
  | '0' :: 'X' :: hex =>
    match parseU16 16 hex with
    | some v => .ok v
    | none => .error (.InvalidAddress (String.mk s))
  | _ =>
    match parseU16 10 s with
    | some v => .ok v
    | none => .error (.InvalidAddress (String.mk s))

/-- `Assembler::parse_mode`: `0` is direct, `1` is indexed. -/
def parse_mode (s : List Char) : Except AssemblerError AddressingMode :=
  if s = ['0'] then .ok .Direct
  else if s = ['1'] then .ok .Indexed
  else .error (.InvalidMode (String.mk s))

/-- `Assembler::parse_shift_count`. -/
def parse_shift_count (s : List Char) : Except AssemblerError Nat :=
  match parseU8 s with
  | some v => .ok v
  | none => .error (.InvalidShiftCount (String.mk s))

/-- `BranchCondition::parse` (`src/cpu/instruction.rs`): case-insensitive
`Z`, `NZ`, `P`, `N`, `V`, `C`. -/
def BranchCondition.parse (s : List Char) : Option BranchCondition :=
  match String.mk (s.map upChar) with
  | "Z" => some .Zero
  | "NZ" => some .NonZero
  | "P" => some .Positive
  | "N" => some .Negative
  | "V" => some .Overflow
  | "C" => some .Carry
  | _ => none

/-- `Assembler::parse_line`: split into whitespace-separated tokens, match
the uppercased mnemonic, and parse the operands it requires. -/
def parse_line (line : List Char) : Except AssemblerError Instruction :=
  match splitWs line with
  | [] => .error (.SyntaxError "Empty line")
  | mnemonicTok :: rest =>
    match String.mk (mnemonicTok.map upChar), rest with
    | "LD", modeTok :: addrTok :: _ =>
      match parse_mode modeTok with
      | .error e => .error e
      | .ok mode =>
        match parse_address addrTok with
        | .error e => .error e
        | .ok addr => .ok (.LD addr mode)
    | "LD", _ => .error (.MissingOperand "LD")
    | "STO", modeTok :: addrTok :: _ =>
      match parse_mode modeTok with
      | .error e => .error e
      | .ok mode =>
        match parse_address addrTok with
        | .error e => .error e
        | .ok addr => .ok (.STO addr mode)
    | "STO", _ => .error (.MissingOperand "STO")
    | "A", modeTok :: addrTok :: _ =>
      match parse_mode modeTok with
      | .error e => .error e
      | .ok mode =>
        match parse_address addrTok with
        | .error e => .error e
        | .ok addr => .ok (.A addr mode)
    | "A", _ => .error (.MissingOperand "A")
    | "S", modeTok :: addrTok :: _ =>
      match parse_mode modeTok with
      | .error e => .error e
      | .ok mode =>
        match parse_address addrTok with
        | .error e => .error e
        | .ok addr => .ok (.S addr mode)
    | "S", _ => .error (.MissingOperand "S")
    | "AND", modeTok :: addrTok :: _ =>
      match parse_mode modeTok with
      | .error e => .error e
      | .ok mode =>
        match parse_address addrTok with
        | .error e => .error e
        | .ok addr => .ok (.AND addr mode)
    | "AND", _ => .error (.MissingOperand "AND")
    | "OR", modeTok :: addrTok :: _ =>
      match parse_mode modeTok with
      | .error e => .error e
      | .ok mode =>
        match parse_address addrTok with
        | .error e => .error e
        | .ok addr => .ok (.OR addr mode)
    | "OR", _ => .error (.MissingOperand "OR")
    | "LDX", addrTok :: _ =>
      match parse_address addrTok with
      | .error e => .error e
      | .ok addr => .ok (.LDX addr)
    | "LDX", _ => .error (.MissingOperand "LDX")
    | "STX", addrTok :: _ =>
      match parse_address addrTok with
      | .error e => .error e
      | .ok addr => .ok (.STX addr)
    | "STX", _ => .error (.MissingOperand "STX")
    | "SLA", countTok :: _ =>
      match parse_shift_count countTok with
      | .error e => .error e
      | .ok count => .ok (.SLA count)
    | "SLA", _ => .error (.MissingOperand "SLA")
    | "SRA", countTok :: _ =>
      match parse_shift_count countTok with
      | .error e => .error e
      | .ok count => .ok (.SRA count)
    | "SRA", _ => .error (.MissingOperand "SRA")
    | "BSC", condTok :: addrTok :: _ =>
      match BranchCondition.parse condTok with
      | none => .error (.InvalidCondition (String.mk condTok))
      | some condition =>
        match parse_address addrTok with
        | .error e => .error e
        | .ok addr => .ok (.BSC addr condition)
    | "BSC", _ => .error (.MissingOperand "BSC")
    | "BSI", addrTok :: _ =>
      match parse_address addrTok with
      | .error e => .error e
      | .ok addr => .ok (.BSI addr)
    | "BSI", _ => .error (.MissingOperand "BSI")
    | "WAIT", _ => .ok .WAIT
    | "NOP", _ => .ok .NOP
    | other, _ => .error (.InvalidMnemonic other)

/-- `Assembler::parse_org_directive`: the token after `ORG` parsed as an
address (a parse failure is reported as `InvalidDataAddress`, mirroring
the `map_err` in the source). -/
def parse_org_directive (line : List Char) : Except AssemblerError Nat :=
  match splitWs line with
  | _ :: addrTok :: _ =>
    match parse_address addrTok with
    | .ok a => .ok a
    | .error _ => .error (.InvalidDataAddress (String.mk addrTok))
  | _ => .error (.SyntaxError "ORG directive requires an address")

/-- `Assembler::parse_data_directive`: address and value tokens after
`DATA`, with the DATA-specific error variants. -/
def parse_data_directive (line : List Char) : Except AssemblerError (Nat × Nat) :=
  match splitWs line with
  | _ :: addrTok :: valueTok :: _ =>
    match parse_address addrTok with
    | .error _ => .error (.InvalidDataAddress (String.mk addrTok))
    | .ok addr =>
      match parse_address valueTok with
      | .error _ => .error (.InvalidDataValue (String.mk valueTok))
      | .ok value => .ok (addr, value)
  | _ => .error (.SyntaxError "DATA directive requires address and value")

/-- One line of the assembly listing (`AssemblyLine` in
`src/assembler.rs`). -/
structure AssemblyLine where
  address : Nat
  opcode : Nat
  source : List Char
deriving DecidableEq

/-- The assembler's running state during `Assembler::assemble`: the
address cursor plus the code and listing vectors being built. -/
structure AsmAcc where
  current_addr : Nat
  code : List Nat
  listing : List AssemblyLine
deriving DecidableEq

/-- Body of the per-line loop in `Assembler::assemble`: strip the
comment, trim, skip blank lines, dispatch `ORG` and `DATA` directives by
case-insensitive prefix, otherwise parse and encode an instruction,
append it to code and listing, and advance the cursor (a `u16`
increment, embedded modulo `2 ^ 16`). -/
def processLine (st : AsmAcc) (rawLine : List Char) : Except AssemblerError AsmAcc :=
  let line := trimChars (stripComment rawLine)
  if line = [] then .ok st
  else if List.isPrefixOf "ORG".toList (line.map upChar) then
    match parse_org_directive line with
    | .error e => .error e
    | .ok new_addr => .ok { st with current_addr := new_addr }
  else if List.isPrefixOf "DATA".toList (line.map upChar) then
    match parse_data_directive line with
    | .error e => .error e
    | .ok _ => .ok st
  else
    match parse_line line with
    | .error e => .error e
    | .ok instr =>
      match encode_instruction instr with
      | .error e => .error e
      | .ok opcode =>
        .ok
          { current_addr := (st.current_addr + 1) % 2 ^ 16
            code := st.code ++ [opcode]
            listing := st.listing ++ [⟨st.current_addr, opcode, line⟩] }

/-- The line loop of `Assembler::assemble`, fail-fast on the first
erroneous line. -/
def assembleLines (st : AsmAcc) : List (List Char) → Except AssemblerError AsmAcc
  | [] => .ok st
  | l :: ls =>
    match processLine st l with
    | .error e => .error e
    | .ok st1 => assembleLines st1 ls

/-- Assembled program result (`AssembledProgram` in `src/assembler.rs`). -/
structure AssembledProgram where
  code : List Nat
  start_addr : Nat
  listing : List AssemblyLine
deriving DecidableEq

/-- `Assembler::assemble` on a fresh `Assembler::new` (cursor at
`PROGRAM_START`), taking the source already split into lines (Rust's
`source.lines()`). -/
def assemble (lines : List (List Char)) : Except AssemblerError AssembledProgram :=
  match assembleLines ⟨PROGRAM_START, [], []⟩ lines with
  | .error e => .error e
  | .ok st => .ok { code := st.code, start_addr := PROGRAM_START, listing := st.listing }

/-- The public mutating operations on `CpuState` named by the IAR
invariant claim, as one step alphabet. -/
inductive Op where
  | SetIar (addr : Nat)
  | IncrementIar
  | Execute (instr : Instruction)
  | Reset
  | HardReset
  | LoadProgram (start : Nat) (data : List Nat)
  | WriteWord (addr : Nat) (value : Nat)
  | WriteAcc (value : Nat)
  | WriteExt (value : Nat)
  | WriteXr1 (value : Nat)
  | WriteXr2 (value : Nat)
  | WriteXr3 (value : Nat)

/-- Apply one public operation; a fallible operation that fails leaves the
state exactly as the Rust method does (unchanged for the
`Except`-returning ones, the returned state for `execute`). -/
def applyOp (s : CpuState) : Op → CpuState
  | .SetIar addr =>
    match s.set_iar addr with
    | .ok s1 => s1
    | .error _ => s
  | .IncrementIar =>
    match s.increment_iar with
    | .ok s1 => s1
    | .error _ => s
  | .Execute instr => (s.execute instr).1
  | .Reset => s.reset
  | .HardReset => s.hard_reset
  | .LoadProgram start data =>
    match s.load_program start data with
    | .ok s1 => s1
    | .error _ => s
  | .WriteWord addr value =>
    match s.write_word addr value with
    | .ok s1 => s1
    | .error _ => s
  | .WriteAcc value => { s with acc := value }
  | .WriteExt value => { s with ext := value }
  | .WriteXr1 value => s.write_xr1 value
  | .WriteXr2 value => s.write_xr2 value
  | .WriteXr3 value => s.write_xr3 value

instance {ε α : Type} [DecidableEq ε] [DecidableEq α] : DecidableEq (Except ε α) := fun x y =>
  match x, y with
  | .ok a, .ok b => if h : a = b then .isTrue (by rw [h]) else .isFalse (by simp [h])
  | .error a, .error b => if h : a = b then .isTrue (by rw [h]) else .isFalse (by simp [h])
  | .ok _, .error _ => .isFalse (by simp)
  | .error _, .ok _ => .isFalse (by simp)

/-- An instruction value is representable in the 16-bit encoding: every
address field fits the 8-bit address field and every shift count fits a
byte (the `u8` range it has in the Rust type). -/
def Instruction.representable : Instruction → Bool
  | .LD addr _ => addr ≤ 0xFF
  | .STO addr _ => addr ≤ 0xFF
  | .LDX addr => addr ≤ 0xFF
  | .STX addr => addr ≤ 0xFF
  | .A addr _ => addr ≤ 0xFF
  | .S addr _ => addr ≤ 0xFF
  | .AND addr _ => addr ≤ 0xFF
  | .OR addr _ => addr ≤ 0xFF
  | .SLA count => count ≤ 0xFF
  | .SRA count => count ≤ 0xFF
  | .BSC addr _ => addr ≤ 0xFF
  | .BSI addr => addr ≤ 0xFF
  | .WAIT => true
  | .NOP => true

/-- The intrinsic bounds of the Rust `Instruction` type: `u16` address
fields and `u8` shift counts. -/
def Instruction.wf : Instruction → Bool
  | .LD addr _ => addr < 2 ^ 16
  | .STO addr _ => addr < 2 ^ 16
  | .LDX addr => addr < 2 ^ 16
  | .STX addr => addr < 2 ^ 16
  | .A addr _ => addr < 2 ^ 16
  | .S addr _ => addr < 2 ^ 16
  | .AND addr _ => addr < 2 ^ 16
  | .OR addr _ => addr < 2 ^ 16
  | .SLA count => count < 2 ^ 8
  | .SRA count => count < 2 ^ 8
  | .BSC addr _ => addr < 2 ^ 16
  | .BSI addr => addr < 2 ^ 16
  | .WAIT => true
  | .NOP => true

set_option maxRecDepth 100000
set_option maxHeartbeats 4000000

/-- C2: for every constructible instruction representable in the 16-bit
encoding (address fields at most `0xFF`, shift counts at most `0xFF`, any
mode and branch condition), decoding the result of encoding yields the
original instruction. -/
theorem c2_encode_decode_roundtrip (i : Instruction) (h : i.representable = true) :
    Except.bind (encode_instruction i) decode_instruction = Except.ok i := by
  cases i with
  | LD addr mode =>
    have hlt : addr < 256 := Nat.lt_succ_of_le (of_decide_eq_true h)
    cases mode with
    | Direct =>
      exact (by decide :
        ∀ a, a < 256 → Except.bind (encode_instruction (.LD a .Direct)) decode_instruction =
          Except.ok (.LD a .Direct)) addr hlt
    | Indexed =>
      exact (by decide :
        ∀ a, a < 256 → Except.bind (encode_instruction (.LD a .Indexed)) decode_instruction =
          Except.ok (.LD a .Indexed)) addr hlt
  | STO addr mode =>
    have hlt : addr < 256 := Nat.lt_succ_of_le (of_decide_eq_true h)
    cases mode with
    | Direct =>
      exact (by decide :
        ∀ a, a < 256 → Except.bind (encode_instruction (.STO a .Direct)) decode_instruction =
          Except.ok (.STO a .Direct)) addr hlt
    | Indexed =>
      exact (by decide :
        ∀ a, a < 256 → Except.bind (encode_instruction (.STO a .Indexed)) decode_instruction =
          Except.ok (.STO a .Indexed)) addr hlt
  | LDX addr =>
    have hlt : addr < 256 := Nat.lt_succ_of_le (of_decide_eq_true h)
    exact (by decide :
      ∀ a, a < 256 → Except.bind (encode_instruction (.LDX a)) decode_instruction =
        Except.ok (.LDX a)) addr hlt
  | STX addr =>
    have hlt : addr < 256 := Nat.lt_succ_of_le (of_decide_eq_true h)
    exact (by decide :
      ∀ a, a < 256 → Except.bind (encode_instruction (.STX a)) decode_instruction =
        Except.ok (.STX a)) addr hlt
  | A addr mode =>
    have hlt : addr < 256 := Nat.lt_succ_of_le (of_decide_eq_true h)
    cases mode with
    | Direct =>
      exact (by decide :
        ∀ a, a < 256 → Except.bind (encode_instruction (.A a .Direct)) decode_instruction =
          Except.ok (.A a .Direct)) addr hlt
    | Indexed =>
      exact (by decide :
        ∀ a, a < 256 → Except.bind (encode_instruction (.A a .Indexed)) decode_instruction =
          Except.ok (.A a .Indexed)) addr hlt
  | S addr mode =>
    have hlt : addr < 256 := Nat.lt_succ_of_le (of_decide_eq_true h)
    cases mode with
    | Direct =>
      exact (by decide :
        ∀ a, a < 256 → Except.bind (encode_instruction (.S a .Direct)) decode_instruction =
          Except.ok (.S a .Direct)) addr hlt
    | Indexed =>
      exact (by decide :
        ∀ a, a < 256 → Except.bind (encode_instruction (.S a .Indexed)) decode_instruction =
          Except.ok (.S a .Indexed)) addr hlt
  | AND addr mode =>
    have hlt : addr < 256 := Nat.lt_succ_of_le (of_decide_eq_true h)
    cases mode with
    | Direct =>
      exact (by decide :
        ∀ a, a < 256 → Except.bind (encode_instruction (.AND a .Direct)) decode_instruction =
          Except.ok (.AND a .Direct)) addr hlt
    | Indexed =>
      exact (by decide :
        ∀ a, a < 256 → Except.bind (encode_instruction (.AND a .Indexed)) decode_instruction =
          Except.ok (.AND a .Indexed)) addr hlt
  | OR addr mode =>
    have hlt : addr < 256 := Nat.lt_succ_of_le (of_decide_eq_true h)
    cases mode with
    | Direct =>
      exact (by decide :
        ∀ a, a < 256 → Except.bind (encode_instruction (.OR a .Direct)) decode_instruction =
          Except.ok (.OR a .Direct)) addr hlt
    | Indexed =>
      exact (by decide :
        ∀ a, a < 256 → Except.bind (encode_instruction (.OR a .Indexed)) decode_instruction =
          Except.ok (.OR a .Indexed)) addr hlt
  | SLA count =>
    have hlt : count < 256 := Nat.lt_succ_of_le (of_decide_eq_true h)
    exact (by decide :
      ∀ a, a < 256 → Except.bind (encode_instruction (.SLA a)) decode_instruction =
        Except.ok (.SLA a)) count hlt
  | SRA count =>
    have hlt : count < 256 := Nat.lt_succ_of_le (of_decide_eq_true h)
    exact (by decide :
      ∀ a, a < 256 → Except.bind (encode_instruction (.SRA a)) decode_instruction =
        Except.ok (.SRA a)) count hlt
  | BSC addr condition =>
    have hlt : addr < 256 := Nat.lt_succ_of_le (of_decide_eq_true h)
    cases condition with
    | Zero =>
      exact (by decide :
        ∀ a, a < 256 → Except.bind (encode_instruction (.BSC a .Zero)) decode_instruction =
          Except.ok (.BSC a .Zero)) addr hlt
    | NonZero =>
      exact (by decide :
        ∀ a, a < 256 → Except.bind (encode_instruction (.BSC a .NonZero)) decode_instruction =
          Except.ok (.BSC a .NonZero)) addr hlt
    | Positive =>
      exact (by decide :
        ∀ a, a < 256 → Except.bind (encode_instruction (.BSC a .Positive)) decode_instruction =
          Except.ok (.BSC a .Positive)) addr hlt
    | Negative =>
      exact (by decide :
        ∀ a, a < 256 → Except.bind (encode_instruction (.BSC a .Negative)) decode_instruction =
          Except.ok (.BSC a .Negative)) addr hlt
    | Overflow =>
      exact (by decide :
        ∀ a, a < 256 → Except.bind (encode_instruction (.BSC a .Overflow)) decode_instruction =
          Except.ok (.BSC a .Overflow)) addr hlt
    | Carry =>
      exact (by decide :
        ∀ a, a < 256 → Except.bind (encode_instruction (.BSC a .Carry)) decode_instruction =
          Except.ok (.BSC a .Carry)) addr hlt
  | BSI addr =>
    have hlt : addr < 256 := Nat.lt_succ_of_le (of_decide_eq_true h)
    exact (by decide :
      ∀ a, a < 256 → Except.bind (encode_instruction (.BSI a)) decode_instruction =
        Except.ok (.BSI a)) addr hlt
  | WAIT => decide
  | NOP => decide

/-- Witness for C2 at a concrete representable instruction. -/
theorem c2_encode_decode_roundtrip_witness :
    (Instruction.LD 10 .Direct).representable = true ∧
      Except.bind (encode_instruction (.LD 10 .Direct)) decode_instruction =
        Except.ok (.LD 10 .Direct) :=
  ⟨by decide, c2_encode_decode_roundtrip (.LD 10 .Direct) (by decide)⟩

/-- C10: `encode_instruction` never produces its error result; it returns
`Ok` with a 16-bit opcode for every instruction value. -/
theorem c10_encode_total (i : Instruction) (h : i.wf = true) :
    ∃ w, encode_instruction i = Except.ok w ∧ w < 2 ^ 16 := by
  have hand : ∀ a : Nat, a &&& 0xFF < 2 ^ 16 :=
    fun a => lt_of_le_of_lt Nat.and_le_right (by norm_num)
  have hmode : ∀ m, modeBit m <<< 8 < 2 ^ 16 := fun m => by cases m <;> decide
  cases i with
  | LD addr mode =>
    exact ⟨_, rfl, Nat.or_lt_two_pow (Nat.or_lt_two_pow (by norm_num) (hmode mode)) (hand addr)⟩
  | STO addr mode =>
    exact ⟨_, rfl, Nat.or_lt_two_pow (Nat.or_lt_two_pow (by norm_num) (hmode mode)) (hand addr)⟩
  | LDX addr => exact ⟨_, rfl, Nat.or_lt_two_pow (by norm_num) (hand addr)⟩
  | STX addr => exact ⟨_, rfl, Nat.or_lt_two_pow (by norm_num) (hand addr)⟩
  | A addr mode =>
    exact ⟨_, rfl, Nat.or_lt_two_pow (Nat.or_lt_two_pow (by norm_num) (hmode mode)) (hand addr)⟩
  | S addr mode =>
    exact ⟨_, rfl, Nat.or_lt_two_pow (Nat.or_lt_two_pow (by norm_num) (hmode mode)) (hand addr)⟩
  | AND addr mode =>
    exact ⟨_, rfl, Nat.or_lt_two_pow (Nat.or_lt_two_pow (by norm_num) (hmode mode)) (hand addr)⟩
  | OR addr mode =>
    exact ⟨_, rfl, Nat.or_lt_two_pow (Nat.or_lt_two_pow (by norm_num) (hmode mode)) (hand addr)⟩
  | SLA count =>
    have hc : count < 2 ^ 16 := lt_trans (of_decide_eq_true h) (by norm_num)
    exact ⟨_, rfl, Nat.or_lt_two_pow (by norm_num) hc⟩
  | SRA count =>
    have hc : count < 2 ^ 16 := lt_trans (of_decide_eq_true h) (by norm_num)
    exact ⟨_, rfl, Nat.or_lt_two_pow (by norm_num) hc⟩
  | BSC addr condition =>
    cases condition <;>
      exact ⟨_, rfl, Nat.or_lt_two_pow (Nat.or_lt_two_pow (by norm_num) (by decide)) (hand addr)⟩
  | BSI addr => exact ⟨_, rfl, Nat.or_lt_two_pow (by norm_num) (hand addr)⟩
  | WAIT => exact ⟨_, rfl, by norm_num⟩
  | NOP => exact ⟨_, rfl, by norm_num⟩

/-- Witness for C10 at a concrete instruction. -/
theorem c10_encode_total_witness :
    (Instruction.SLA 200).wf = true ∧ ∃ w, encode_instruction (.SLA 200) = Except.ok w ∧ w < 2 ^ 16 :=
  ⟨by decide, c10_encode_total (.SLA 200) (by decide)⟩

/-- Counters are untouched by every instruction effect (they are only
incremented by `execute` itself, after a successful effect). -/
theorem exec_effect_counts (s : CpuState) (instr : Instruction) :
    (s.exec_effect instr).1.instruction_count = s.instruction_count ∧
    (s.exec_effect instr).1.cycle_count = s.cycle_count := by
  cases instr <;>
    simp only [CpuState.exec_effect, CpuState.exec_ld, CpuState.exec_sto, CpuState.exec_ldx,
      CpuState.exec_stx, CpuState.exec_add, CpuState.exec_sub, CpuState.exec_and,
      CpuState.exec_or, CpuState.exec_sla, CpuState.exec_sra, CpuState.exec_bsc,
      CpuState.exec_bsi, CpuState.read_word, CpuState.write_word, CpuState.set_iar,
      CpuState.update_flags_add, CpuState.update_flags_sub, CpuState.halt,
      CpuState.write_xr1] <;>
    (try split_ifs) <;> simp

/-- No instruction effect ever reports the `Halted` error. -/
theorem exec_effect_ne_halted (s : CpuState) (instr : Instruction) :
    (s.exec_effect instr).2 ≠ some CpuError.Halted := by
  cases instr <;>
    simp only [CpuState.exec_effect, CpuState.exec_ld, CpuState.exec_sto, CpuState.exec_ldx,
      CpuState.exec_stx, CpuState.exec_add, CpuState.exec_sub, CpuState.exec_and,
      CpuState.exec_or, CpuState.exec_sla, CpuState.exec_sra, CpuState.exec_bsc,
      CpuState.exec_bsi, CpuState.read_word, CpuState.write_word, CpuState.set_iar] <;>
    (try split_ifs) <;> simp

/-- C1 (amended): `execute` fails with `Halted` exactly when the CPU is
already halted; when the effect succeeds both counters are incremented by
exactly one, and when it fails they are unchanged. -/
theorem c1_execute (s : CpuState) (instr : Instruction) :
    ((s.execute instr).2 = some CpuError.Halted ↔ s.halted = true) ∧
    ((s.execute instr).2 = none →
      (s.execute instr).1.instruction_count = s.instruction_count + 1 ∧
      (s.execute instr).1.cycle_count = s.cycle_count + 1) ∧
    ((s.execute instr).2 ≠ none →
      (s.execute instr).1.instruction_count = s.instruction_count ∧
      (s.execute instr).1.cycle_count = s.cycle_count) := by
  unfold CpuState.execute
  by_cases hh : s.halted = true
  · rw [if_pos hh]
    simp [hh]
  · rw [if_neg hh]
    obtain ⟨hc1, hc2⟩ := exec_effect_counts s instr
    have hne := exec_effect_ne_halted s instr
    rcases he : s.exec_effect instr with ⟨s1, e⟩
    rw [he] at hc1 hc2 hne
    cases e with
    | none =>
      refine ⟨by simpa using hh, fun _ => ⟨by simpa using hc1, by simpa using hc2⟩, ?_⟩
      intro hcon
      simp at hcon
    | some err =>
      refine ⟨?_, by simp, fun _ => ⟨hc1, hc2⟩⟩
      constructor
      · intro hsome
        exact absurd (by simpa using hsome) (by simpa using hne)
      · intro hcon
        exact absurd hcon hh

/-- C1 counterexample: a non-halted CPU for which `execute` does not
return success (and does not fail with `Halted` either): a direct load
whose address is outside the 4096-word memory. -/
theorem c1_counterexample :
    CpuState.new.halted = false ∧
    (CpuState.new.execute (.LD 4096 .Direct)).2 = some (CpuError.MemoryOutOfBounds 4096) := by
  decide

/-- Witness for C1 at a concrete state and instruction. -/
theorem c1_execute_witness :
    (CpuState.new.execute .NOP).2 = none ∧
    (CpuState.new.execute .NOP).1.instruction_count = CpuState.new.instruction_count + 1 ∧
    (CpuState.new.execute .NOP).1.cycle_count = CpuState.new.cycle_count + 1 :=
  ⟨by decide, (c1_execute CpuState.new .NOP).2.1 (by decide)⟩

/-- C4: once `execute(WAIT)` has succeeded the halted flag is set, and
every subsequent `execute` of any instruction returns the `Halted` error
with the state completely unchanged. -/
theorem c4_halted_rejects (s s1 : CpuState) (h : s.execute .WAIT = (s1, none)) :
    s1.halted = true ∧ ∀ instr, s1.execute instr = (s1, some CpuError.Halted) := by
  unfold CpuState.execute at h
  by_cases hh : s.halted = true
  · rw [if_pos hh] at h
    exact absurd (congrArg Prod.snd h) (by simp)
  · rw [if_neg hh] at h
    simp only [CpuState.exec_effect] at h
    rw [Prod.mk.injEq] at h
    obtain ⟨h1, -⟩ := h
    subst h1
    refine ⟨rfl, fun instr => ?_⟩
    simp [CpuState.execute, CpuState.halt]

/-- Witness for C4 at the freshly constructed CPU. -/
theorem c4_halted_rejects_witness :
    (CpuState.new.execute .WAIT).1.halted = true ∧
    (CpuState.new.execute .WAIT).1.execute .NOP =
      ((CpuState.new.execute .WAIT).1, some CpuError.Halted) := by
  obtain ⟨h1, h2⟩ := c4_halted_rejects CpuState.new (CpuState.new.execute .WAIT).1 rfl
  exact ⟨h1, h2 .NOP⟩

/-- C7 (amended): `increment_iar` wraps the incremented address modulo
`2 ^ 16` and then bounds-checks the wrapped value, succeeding exactly when
it is below `MEMORY_SIZE`; wraparound past `0xFFFF` produces address `0`,
which passes the bounds check. -/
theorem c7_increment_iar (s : CpuState) :
    ((s.iar + 1) % 2 ^ 16 < MEMORY_SIZE →
      s.increment_iar = Except.ok { s with iar := (s.iar + 1) % 2 ^ 16 }) ∧
    (MEMORY_SIZE ≤ (s.iar + 1) % 2 ^ 16 →
      s.increment_iar = Except.error (.IarOutOfBounds ((s.iar + 1) % 2 ^ 16))) ∧
    (s.iar = 0xFFFF → Except.map CpuState.iar s.increment_iar = Except.ok 0) := by
  unfold CpuState.increment_iar CpuState.set_iar
  refine ⟨fun h => ?_, fun h => ?_, fun h => ?_⟩
  · rw [if_neg (by omega)]
  · rw [if_pos h]
  · rw [h]
    norm_num [MEMORY_SIZE, Except.map]

/-- C7 counterexample: with the IAR at `0xFFFF` the wrapped increment is
`0`, and `increment_iar` succeeds (setting the IAR to `0`) instead of
failing the bounds check as the claim requires. -/
theorem c7_counterexample :
    Except.map CpuState.iar ({ CpuState.new with iar := 0xFFFF } : CpuState).increment_iar =
      Except.ok 0 := by
  decide

/-- Witness for C7 at the freshly constructed CPU. -/
theorem c7_increment_iar_witness :
    (CpuState.new.iar + 1) % 2 ^ 16 < MEMORY_SIZE ∧
    CpuState.new.increment_iar =
      Except.ok { CpuState.new with iar := (CpuState.new.iar + 1) % 2 ^ 16 } :=
  ⟨by decide, (c7_increment_iar CpuState.new).1 (by decide)⟩

/-- C6 (amended): for every shift count the shifts succeed and touch no
flags; the effective shift amount is the count reduced modulo 16 (the Rust
primitive shift masks an overflowing amount), so `SLA count` multiplies
the accumulator by `2 ^ (count % 16)` modulo `2 ^ 16` and `SRA count`
arithmetically (sign-extending) shifts it right by `count % 16`. -/
theorem c6_shifts (s : CpuState) (count : Nat) (hh : s.halted = false)
    (hacc : s.acc < 2 ^ 16) :
    (s.execute (.SLA count)).2 = none ∧
    (s.execute (.SLA count)).1.acc = s.acc * 2 ^ (count % 16) % 2 ^ 16 ∧
    (s.execute (.SLA count)).1.carry = s.carry ∧
    (s.execute (.SLA count)).1.overflow = s.overflow ∧
    (s.execute (.SRA count)).2 = none ∧
    (s.execute (.SRA count)).1.acc =
      s.acc / 2 ^ (count % 16) +
        (if 2 ^ 15 ≤ s.acc then 2 ^ 16 - 2 ^ (16 - count % 16) else 0) ∧
    (s.execute (.SRA count)).1.carry = s.carry ∧
    (s.execute (.SRA count)).1.overflow = s.overflow := by
  have hb : ¬ (s.halted = true) := by simp [hh]
  unfold CpuState.execute CpuState.exec_effect CpuState.exec_sla CpuState.exec_sra
  rw [if_neg hb, if_neg hb]
  have hk : count % 16 < 16 := Nat.mod_lt _ (by norm_num)
  refine ⟨rfl, ?_, rfl, rfl, rfl, ?_, rfl, rfl⟩
  · simp [Nat.shiftLeft_eq]
  · simp only [Nat.shiftRight_eq_div_pow]
    rcases Nat.lt_or_ge s.acc (2 ^ 15) with hlo | hhi
    · rw [if_neg (by omega), if_neg (by omega)]
      have hd : s.acc / 2 ^ (count % 16) < 2 ^ 16 :=
        lt_of_le_of_lt (Nat.div_le_self _ _) hacc
      rw [Nat.mod_eq_of_lt hd, Nat.add_zero]
    · rw [if_pos (by omega), if_pos (by omega)]
      set k := count % 16 with hkdef
      interval_cases k <;> omega

/-- C6 counterexample: `SLA 16` with accumulator 1 succeeds but leaves
the accumulator at 1 (the shift amount 16 is masked to 0), while the
claim's formula `(acc * 2 ^ count) % 2 ^ 16` demands 0. -/
theorem c6_counterexample :
    (({ CpuState.new with acc := 1 } : CpuState).execute (.SLA 16)).2 = none ∧
    (({ CpuState.new with acc := 1 } : CpuState).execute (.SLA 16)).1.acc = 1 ∧
    ({ CpuState.new with acc := 1 } : CpuState).acc * 2 ^ 16 % 2 ^ 16 = 0 := by
  refine ⟨by decide, by decide, by decide⟩

/-- Witness for C6 at a concrete shift. -/
theorem c6_shifts_witness :
    CpuState.new.halted = false ∧ CpuState.new.acc < 2 ^ 16 ∧
    (CpuState.new.execute (.SLA 3)).1.acc = CpuState.new.acc * 2 ^ (3 % 16) % 2 ^ 16 :=
  ⟨rfl, by decide, (c6_shifts CpuState.new 3 rfl (by decide)).2.1⟩

/-- Successful `set_iar` characterisation. -/
theorem set_iar_ok (s t : CpuState) (a : Nat) (h : s.set_iar a = .ok t) :
    a < MEMORY_SIZE ∧ t = { s with iar := a } := by
  unfold CpuState.set_iar at h
  split at h
  · exact absurd h (by simp)
  · next hc => exact ⟨by omega, by injection h with h1; exact h1.symm⟩

/-- Failing `set_iar` characterisation. -/
theorem set_iar_error (s : CpuState) (a : Nat) (e : CpuError) (h : s.set_iar a = .error e) :
    MEMORY_SIZE ≤ a ∧ e = .IarOutOfBounds a := by
  unfold CpuState.set_iar at h
  split at h
  · next hc => exact ⟨hc, by injection h with h1; exact h1.symm⟩
  · exact absurd h (by simp)

/-- Successful `write_word` characterisation. -/
theorem write_word_ok (s t : CpuState) (a v : Nat) (h : s.write_word a v = .ok t) :
    a < MEMORY_SIZE ∧ t = { s with memory := fun x => if x = a then v else s.memory x } := by
  unfold CpuState.write_word at h
  split at h
  · exact absurd h (by simp)
  · next hc => exact ⟨by omega, by injection h with h1; exact h1.symm⟩

/-- Successful `read_word` characterisation. -/
theorem read_word_ok (s : CpuState) (a v : Nat) (h : s.read_word a = .ok v) :
    a < MEMORY_SIZE ∧ v = s.memory a := by
  unfold CpuState.read_word at h
  split at h
  · exact absurd h (by simp)
  · next hc => exact ⟨by omega, by injection h with h1; exact h1.symm⟩

/-- Every instruction effect keeps the IAR inside memory when it starts
there (`set_iar` is the only way the effects move it, and it checks). -/
theorem exec_effect_iar_lt (s : CpuState) (instr : Instruction) (h : s.iar < MEMORY_SIZE) :
    (s.exec_effect instr).1.iar < MEMORY_SIZE := by
  cases instr <;>
    simp only [CpuState.exec_effect, CpuState.exec_ld, CpuState.exec_sto, CpuState.exec_ldx,
      CpuState.exec_stx, CpuState.exec_add, CpuState.exec_sub, CpuState.exec_and,
      CpuState.exec_or, CpuState.exec_sla, CpuState.exec_sra, CpuState.exec_bsc,
      CpuState.exec_bsi, CpuState.halt, CpuState.write_xr1, CpuState.update_flags_add,
      CpuState.update_flags_sub]
  case LD addr mode =>
    split
    · exact h
    · exact h
  case STO addr mode =>
    split
    · exact h
    · next t hw => obtain ⟨-, rfl⟩ := write_word_ok _ _ _ _ hw; exact h
  case LDX addr =>
    split
    · exact h
    · exact h
  case STX addr =>
    split
    · exact h
    · next t hw => obtain ⟨-, rfl⟩ := write_word_ok _ _ _ _ hw; exact h
  case A addr mode =>
    split
    · exact h
    · exact h
  case S addr mode =>
    split
    · exact h
    · exact h
  case AND addr mode =>
    split
    · exact h
    · exact h
  case OR addr mode =>
    split
    · exact h
    · exact h
  case SLA count => exact h
  case SRA count => exact h
  case BSC addr condition =>
    split
    · split
      · exact h
      · next t hs => obtain ⟨hlt, rfl⟩ := set_iar_ok _ _ _ hs; exact hlt
    · exact h
  case BSI addr =>
    split
    · exact h
    · next t hw =>
      split
      · next e hs =>
        obtain ⟨-, rfl⟩ := write_word_ok _ _ _ _ hw
        exact h
      · next t2 hs => obtain ⟨hlt, rfl⟩ := set_iar_ok _ _ _ hs; exact hlt
  case WAIT => exact h
  case NOP => exact h

/-- `execute` keeps the IAR inside memory. -/
theorem execute_iar_lt (s : CpuState) (instr : Instruction) (h : s.iar < MEMORY_SIZE) :
    (s.execute instr).1.iar < MEMORY_SIZE := by
  unfold CpuState.execute
  by_cases hh : s.halted = true
  · rw [if_pos hh]; exact h
  · rw [if_neg hh]
    have := exec_effect_iar_lt s instr h
    rcases he : s.exec_effect instr with ⟨t, e⟩
    rw [he] at this
    cases e
    · exact this
    · exact this

/-- Each public operation keeps the IAR inside memory. -/
theorem applyOp_iar_lt (s : CpuState) (o : Op) (h : s.iar < MEMORY_SIZE) :
    (applyOp s o).iar < MEMORY_SIZE := by
  cases o with
  | SetIar a =>
    simp only [applyOp]
    split
    · next t hs => obtain ⟨hlt, rfl⟩ := set_iar_ok _ _ _ hs; exact hlt
    · exact h
  | IncrementIar =>
    simp only [applyOp]
    split
    · next t hs =>
      obtain ⟨hlt, rfl⟩ := set_iar_ok _ _ _ hs
      exact hlt
    · exact h
  | Execute instr => exact execute_iar_lt s instr h
  | Reset => exact (by decide : PROGRAM_START < MEMORY_SIZE)
  | HardReset => exact (by decide : PROGRAM_START < MEMORY_SIZE)
  | LoadProgram a ws =>
    simp only [applyOp]
    split
    · next t hl =>
      unfold CpuState.load_program at hl
      split at hl
      · exact absurd hl (by simp)
      · injection hl with h1
        rw [← h1]
        exact h
    · exact h
  | WriteWord a v =>
    simp only [applyOp]
    split
    · next t hw => obtain ⟨-, rfl⟩ := write_word_ok _ _ _ _ hw; exact h
    · exact h
  | WriteAcc v => exact h
  | WriteExt v => exact h
  | WriteXr1 v => exact h
  | WriteXr2 v => exact h
  | WriteXr3 v => exact h

/-- Folding any operation sequence preserves the IAR bound. -/
theorem foldl_iar_lt (ops : List Op) (s : CpuState) (h : s.iar < MEMORY_SIZE) :
    (ops.foldl applyOp s).iar < MEMORY_SIZE := by
  induction ops generalizing s with
  | nil => exact h
  | cons o rest ih => exact ih _ (applyOp_iar_lt s o h)

/-- C9: from the freshly constructed CPU, no sequence of public
operations can drive the instruction address register outside memory. -/
theorem c9_iar_invariant (ops : List Op) :
    (ops.foldl applyOp CpuState.new).iar < MEMORY_SIZE :=
  foldl_iar_lt ops CpuState.new (by decide)

/-- A failing instruction effect leaves every register, flag and counter
unchanged; memory is unchanged except that a failing `BSI` may already
have stored the return address at its target cell. -/
theorem exec_effect_error (s t : CpuState) (instr : Instruction) (e : CpuError)
    (he : s.exec_effect instr = (t, some e)) :
    t.acc = s.acc ∧ t.ext = s.ext ∧ t.iar = s.iar ∧ t.carry = s.carry ∧
    t.overflow = s.overflow ∧ t.halted = s.halted ∧
    t.cycle_count = s.cycle_count ∧ t.instruction_count = s.instruction_count ∧
    ∀ a, t.memory a = s.memory a ∨ (instr = .BSI a ∧ t.memory a = s.iar) := by
  cases instr with
  | LD addr mode =>
    simp only [CpuState.exec_effect, CpuState.exec_ld] at he
    split at he
    · rw [Prod.mk.injEq] at he
      obtain ⟨rfl, -⟩ := he
      exact ⟨rfl, rfl, rfl, rfl, rfl, rfl, rfl, rfl, fun a => Or.inl rfl⟩
    · simp at he
  | STO addr mode =>
    simp only [CpuState.exec_effect, CpuState.exec_sto] at he
    split at he
    · rw [Prod.mk.injEq] at he
      obtain ⟨rfl, -⟩ := he
      exact ⟨rfl, rfl, rfl, rfl, rfl, rfl, rfl, rfl, fun a => Or.inl rfl⟩
    · simp at he
  | LDX addr =>
    simp only [CpuState.exec_effect, CpuState.exec_ldx] at he
    split at he
    · rw [Prod.mk.injEq] at he
      obtain ⟨rfl, -⟩ := he
      exact ⟨rfl, rfl, rfl, rfl, rfl, rfl, rfl, rfl, fun a => Or.inl rfl⟩
    · simp at he
  | STX addr =>
    simp only [CpuState.exec_effect, CpuState.exec_stx] at he
    split at he
    · rw [Prod.mk.injEq] at he
      obtain ⟨rfl, -⟩ := he
      exact ⟨rfl, rfl, rfl, rfl, rfl, rfl, rfl, rfl, fun a => Or.inl rfl⟩
    · simp at he
  | A addr mode =>
    simp only [CpuState.exec_effect, CpuState.exec_add] at he
    split at he
    · rw [Prod.mk.injEq] at he
      obtain ⟨rfl, -⟩ := he
      exact ⟨rfl, rfl, rfl, rfl, rfl, rfl, rfl, rfl, fun a => Or.inl rfl⟩
    · simp at he
  | S addr mode =>
    simp only [CpuState.exec_effect, CpuState.exec_sub] at he
    split at he
    · rw [Prod.mk.injEq] at he
      obtain ⟨rfl, -⟩ := he
      exact ⟨rfl, rfl, rfl, rfl, rfl, rfl, rfl, rfl, fun a => Or.inl rfl⟩
    · simp at he
  | AND addr mode =>
    simp only [CpuState.exec_effect, CpuState.exec_and] at he
    split at he
    · rw [Prod.mk.injEq] at he
      obtain ⟨rfl, -⟩ := he
      exact ⟨rfl, rfl, rfl, rfl, rfl, rfl, rfl, rfl, fun a => Or.inl rfl⟩
    · simp at he
  | OR addr mode =>
    simp only [CpuState.exec_effect, CpuState.exec_or] at he
    split at he
    · rw [Prod.mk.injEq] at he
      obtain ⟨rfl, -⟩ := he
      exact ⟨rfl, rfl, rfl, rfl, rfl, rfl, rfl, rfl, fun a => Or.inl rfl⟩
    · simp at he
  | SLA count => simp [CpuState.exec_effect] at he
  | SRA count => simp [CpuState.exec_effect] at he
  | BSC addr condition =>
    simp only [CpuState.exec_effect, CpuState.exec_bsc] at he
    split at he
    · split at he
      · rw [Prod.mk.injEq] at he
        obtain ⟨rfl, -⟩ := he
        exact ⟨rfl, rfl, rfl, rfl, rfl, rfl, rfl, rfl, fun a => Or.inl rfl⟩
      · simp at he
    · simp at he
  | BSI addr =>
    simp only [CpuState.exec_effect, CpuState.exec_bsi] at he
    split at he
    · rw [Prod.mk.injEq] at he
      obtain ⟨rfl, -⟩ := he
      exact ⟨rfl, rfl, rfl, rfl, rfl, rfl, rfl, rfl, fun a => Or.inl rfl⟩
    · next s1 hw =>
      obtain ⟨-, rfl⟩ := write_word_ok _ _ _ _ hw
      split at he
      · rw [Prod.mk.injEq] at he
        obtain ⟨rfl, -⟩ := he
        refine ⟨rfl, rfl, rfl, rfl, rfl, rfl, rfl, rfl, fun a => ?_⟩
        by_cases ha : a = addr
        · subst ha
          exact Or.inr ⟨rfl, by simp⟩
        · exact Or.inl (by simp [ha])
      · simp at he
  | WAIT => simp [CpuState.exec_effect] at he
  | NOP => simp [CpuState.exec_effect] at he

/-- C3 (amended): when `execute` returns an error, every register, flag
and counter (and the halted flag) is unchanged, and memory is unchanged
except that a failing `BSI` may already have stored the return address at
its target cell before the jump's bounds check failed. -/
theorem c3_error_preserves (s s1 : CpuState) (instr : Instruction) (e : CpuError)
    (h : s.execute instr = (s1, some e)) :
    s1.acc = s.acc ∧ s1.ext = s.ext ∧ s1.iar = s.iar ∧ s1.carry = s.carry ∧
    s1.overflow = s.overflow ∧ s1.halted = s.halted ∧
    s1.cycle_count = s.cycle_count ∧ s1.instruction_count = s.instruction_count ∧
    ∀ a, s1.memory a = s.memory a ∨ (instr = .BSI a ∧ s1.memory a = s.iar) := by
  unfold CpuState.execute at h
  by_cases hh : s.halted = true
  · rw [if_pos hh] at h
    rw [Prod.mk.injEq] at h
    obtain ⟨rfl, -⟩ := h
    exact ⟨rfl, rfl, rfl, rfl, rfl, rfl, rfl, rfl, fun a => Or.inl rfl⟩
  · rw [if_neg hh] at h
    rcases he : s.exec_effect instr with ⟨t, e'⟩
    rw [he] at h
    cases e' with
    | none => simp at h
    | some err =>
      rw [Prod.mk.injEq] at h
      obtain ⟨ht, -⟩ := h
      rw [← ht]
      exact exec_effect_error s t instr err he

/-- C3 counterexample: `BSI 4095` on the fresh CPU writes the return
address into memory word 4095 and then fails the IAR bounds check, so
`execute` returns an error after having mutated memory. -/
theorem c3_counterexample :
    (CpuState.new.execute (.BSI 4095)).2 = some (CpuError.IarOutOfBounds 4096) ∧
    (CpuState.new.execute (.BSI 4095)).1.memory 4095 = 16 ∧
    CpuState.new.memory 4095 = 0 := by
  refine ⟨by decide, by decide, rfl⟩

/-- Witness for C3 (amended) at a concrete failing execution. -/
theorem c3_error_preserves_witness :
    (CpuState.new.execute (.LD 4096 .Direct)).1.acc = CpuState.new.acc ∧
    (CpuState.new.execute (.LD 4096 .Direct)).1.iar = CpuState.new.iar := by
  obtain ⟨h1, -, h3, -⟩ := c3_error_preserves CpuState.new
    (CpuState.new.execute (.LD 4096 .Direct)).1 (.LD 4096 .Direct)
    (CpuError.MemoryOutOfBounds 4096) rfl
  exact ⟨h1, h3⟩

/-- For a 16-bit value, the sign-bit test the flag code performs agrees
with the magnitude test `2 ^ 15 ≤ a`. -/
theorem sign_bit_iff (a : Nat) (ha : a < 2 ^ 16) : (a &&& 0x8000 ≠ 0) ↔ 2 ^ 15 ≤ a := by
  have h : a &&& 2 ^ 15 = (a.testBit 15).toNat * 2 ^ 15 := Nat.and_two_pow a 15
  have ht : a.testBit 15 = decide (a / 2 ^ 15 % 2 = 1) := Nat.testBit_to_div_mod
  rw [show (0x8000 : Nat) = 2 ^ 15 by norm_num, h, ht]
  rcases Nat.lt_or_ge a (2 ^ 15) with hlo | hhi
  · have hv : a / 2 ^ 15 = 0 := Nat.div_eq_of_lt hlo
    simp [hv]
    omega
  · have hv : a / 2 ^ 15 = 1 := by omega
    simp [hv]
    omega

/-- A successful `execute` decomposes into a non-halted CPU, a successful
effect, and the two counter increments. -/
theorem execute_success (s s1 : CpuState) (instr : Instruction)
    (h : s.execute instr = (s1, none)) :
    s.halted = false ∧ ∃ t, s.exec_effect instr = (t, none) ∧
      s1 = { t with instruction_count := t.instruction_count + 1,
                    cycle_count := t.cycle_count + 1 } := by
  unfold CpuState.execute at h
  by_cases hh : s.halted = true
  · rw [if_pos hh] at h
    exact absurd (congrArg Prod.snd h) (by simp)
  · rw [if_neg hh] at h
    refine ⟨by simpa using hh, ?_⟩
    rcases he : s.exec_effect instr with ⟨t, e'⟩
    rw [he] at h
    cases e' with
    | none =>
      rw [Prod.mk.injEq] at h
      obtain ⟨ht, -⟩ := h
      exact ⟨t, rfl, ht.symm⟩
    | some err => simp at h

/-- Flags are untouched by the effect of every instruction other than `A`
and `S`. -/
theorem exec_effect_flags (s : CpuState) (instr : Instruction)
    (hA : ∀ a m, instr ≠ .A a m) (hS : ∀ a m, instr ≠ .S a m) :
    (s.exec_effect instr).1.carry = s.carry ∧
    (s.exec_effect instr).1.overflow = s.overflow := by
  cases instr with
  | A addr mode => exact absurd rfl (hA addr mode)
  | S addr mode => exact absurd rfl (hS addr mode)
  | _ =>
    simp only [CpuState.exec_effect, CpuState.exec_ld, CpuState.exec_sto, CpuState.exec_ldx,
      CpuState.exec_stx, CpuState.exec_and, CpuState.exec_or, CpuState.exec_sla,
      CpuState.exec_sra, CpuState.exec_bsc, CpuState.exec_bsi, CpuState.read_word,
      CpuState.write_word, CpuState.set_iar, CpuState.halt, CpuState.write_xr1]
    (try split_ifs) <;> simp

/-- C5: after a successful `A`, carry is set iff unsigned wraparound
occurred and overflow is set iff both inputs share a sign bit and the
result's sign differs; after a successful `S`, carry is set iff a borrow
occurred and overflow is set iff the input signs differ and the result's
sign differs from the first operand's; no other instruction changes the
flags. -/
theorem c5_flags (s : CpuState) (addr : Nat) (mode : AddressingMode)
    (ha : s.acc < 2 ^ 16) (hb : s.memory (s.effective_address addr mode) < 2 ^ 16) :
    (∀ s1, s.execute (.A addr mode) = (s1, none) →
      (s1.carry = true ↔ 2 ^ 16 ≤ s.acc + s.memory (s.effective_address addr mode)) ∧
      (s1.overflow = true ↔
        ((2 ^ 15 ≤ s.acc ↔ 2 ^ 15 ≤ s.memory (s.effective_address addr mode)) ∧
          ¬(2 ^ 15 ≤ s.acc ↔ 2 ^ 15 ≤ s1.acc)))) ∧
    (∀ s1, s.execute (.S addr mode) = (s1, none) →
      (s1.carry = true ↔ s.acc < s.memory (s.effective_address addr mode)) ∧
      (s1.overflow = true ↔
        (¬(2 ^ 15 ≤ s.acc ↔ 2 ^ 15 ≤ s.memory (s.effective_address addr mode)) ∧
          ¬(2 ^ 15 ≤ s.acc ↔ 2 ^ 15 ≤ s1.acc)))) ∧
    (∀ instr, (∀ a m, instr ≠ .A a m) → (∀ a m, instr ≠ .S a m) →
      (s.execute instr).1.carry = s.carry ∧ (s.execute instr).1.overflow = s.overflow) := by
  refine ⟨?_, ?_, ?_⟩
  · intro s1 h
    obtain ⟨hh, t, he, rfl⟩ := execute_success s s1 _ h
    simp only [CpuState.exec_effect, CpuState.exec_add] at he
    split at he
    · simp at he
    · next v hv =>
      obtain ⟨hea, rfl⟩ := read_word_ok _ _ _ hv
      rw [Prod.mk.injEq] at he
      obtain ⟨ht, -⟩ := he
      subst ht
      simp only [CpuState.update_flags_add]
      constructor
      · rw [decide_eq_true_iff]
        omega
      · rw [Bool.and_eq_true, beq_iff_eq, bne_iff_ne]
        refine and_congr ?_ ?_
        · rw [decide_eq_decide]
          exact iff_congr (sign_bit_iff s.acc ha) (sign_bit_iff _ hb)
        · rw [ne_eq, decide_eq_decide]
          exact not_congr (iff_congr (sign_bit_iff s.acc ha)
            (sign_bit_iff _ (Nat.mod_lt _ (by norm_num))))
  · intro s1 h
    obtain ⟨hh, t, he, rfl⟩ := execute_success s s1 _ h
    simp only [CpuState.exec_effect, CpuState.exec_sub] at he
    split at he
    · simp at he
    · next v hv =>
      obtain ⟨hea, rfl⟩ := read_word_ok _ _ _ hv
      rw [Prod.mk.injEq] at he
      obtain ⟨ht, -⟩ := he
      subst ht
      simp only [CpuState.update_flags_sub]
      constructor
      · rw [decide_eq_true_iff]
      · rw [Bool.and_eq_true, bne_iff_ne, bne_iff_ne]
        refine and_congr ?_ ?_
        · rw [ne_eq, decide_eq_decide]
          exact not_congr (iff_congr (sign_bit_iff s.acc ha) (sign_bit_iff _ hb))
        · rw [ne_eq, decide_eq_decide]
          exact not_congr (iff_congr (sign_bit_iff s.acc ha)
            (sign_bit_iff _ (Nat.mod_lt _ (by norm_num))))
  · intro instr hA hS
    unfold CpuState.execute
    by_cases hh : s.halted = true
    · rw [if_pos hh]
      exact ⟨rfl, rfl⟩
    · rw [if_neg hh]
      obtain ⟨hc, ho⟩ := exec_effect_flags s instr hA hS
      rcases he : s.exec_effect instr with ⟨t, e⟩
      rw [he] at hc ho
      cases e
      · exact ⟨hc, ho⟩
      · exact ⟨hc, ho⟩

/-- Witness for C5 at a concrete successful addition. -/
theorem c5_flags_witness :
    (CpuState.new.execute (.A 0x50 .Direct)).1.carry = true ↔
      2 ^ 16 ≤ CpuState.new.acc + CpuState.new.memory (CpuState.new.effective_address 0x50 .Direct) :=
  ((c5_flags CpuState.new 0x50 .Direct (by decide) (by decide)).1 _ rfl).1

/-- Mid-token splitter: with a nonempty current word, the next emitted
token is that word followed by the maximal non-whitespace run. -/
theorem splitWsAux_token (cs : List Char) (cur : List Char) (hcur : cur ≠ []) :
    splitWsAux cs cur =
      (cur.reverse ++ cs.takeWhile (fun c => !isWs c)) ::
        splitWs ((cs.dropWhile (fun c => !isWs c)).drop 1) := by
  induction cs generalizing cur with
  | nil => simp [splitWsAux, splitWs, hcur]
  | cons c cs ih =>
    by_cases hw : isWs c = true
    · rw [splitWsAux, if_pos hw, if_neg hcur]
      simp [List.takeWhile_cons, List.dropWhile_cons, hw, splitWs]
    · rw [splitWsAux, if_neg (by simp [hw])]
      rw [ih (c :: cur) (by simp)]
      simp [List.takeWhile_cons, List.dropWhile_cons, hw]

/-- Head token of a line that starts with a non-whitespace character:
the maximal leading non-whitespace run. -/
theorem splitWs_cons_head (c : Char) (cs : List Char) (hw : isWs c = false) :
    splitWs (c :: cs) =
      ((c :: cs).takeWhile (fun x => !isWs x)) ::
        splitWs (((c :: cs).dropWhile (fun x => !isWs x)).drop 1) := by
  rw [splitWs, splitWsAux, if_neg (by simp [hw])]
  rw [splitWsAux_token cs [c] (by simp)]
  simp [List.takeWhile_cons, List.dropWhile_cons, hw]

/-- A trimmed line never starts with whitespace. -/
theorem trimChars_head_not_ws (x : List Char) (c : Char) (cs : List Char)
    (h : trimChars x = c :: cs) : isWs c = false := by
  obtain ⟨t, ht⟩ := List.dropWhile_suffix (l := (x.dropWhile (isWs ·)).reverse) (p := (isWs ·))
  have hx : trimChars x ++ t.reverse = x.dropWhile (isWs ·) := by
    have := congrArg List.reverse ht
    simpa [trimChars, List.reverse_append] using this
  have hne : x.dropWhile (isWs ·) ≠ [] := by
    rw [← hx, h]
    simp
  have hhead := List.head_dropWhile_not (isWs ·) x hne
  have hx2 : x.dropWhile (isWs ·) = c :: (cs ++ t.reverse) := by
    rw [← hx, h]
    simp
  have h9 : (x.dropWhile (isWs ·)).head? = some c := by rw [hx2]; rfl
  have h10 : (x.dropWhile (isWs ·)).head? = some ((x.dropWhile (isWs ·)).head hne) :=
    List.head?_eq_head hne
  rw [h9] at h10
  injection h10 with h11
  rw [← h11] at hhead
  exact hhead

/-- The first token reported by `splitWs` on a trimmed line is a prefix
of the line (the line is that token followed by the rest). -/
theorem trim_token_structure (x : List Char) (tok : List Char) (ts : List (List Char))
    (hsp : splitWs (trimChars x) = tok :: ts) :
    trimChars x = tok ++ (trimChars x).dropWhile (fun c => !isWs c) := by
  rcases hl : trimChars x with _ | ⟨c, cs⟩
  · rw [hl] at hsp
    simp [splitWs, splitWsAux] at hsp
  · have hw := trimChars_head_not_ws x c cs hl
    rw [hl] at hsp
    rw [splitWs_cons_head c cs hw] at hsp
    injection hsp with h1 h2
    rw [← h1]
    exact (List.takeWhile_append_dropWhile (fun x => !isWs x) (c :: cs)).symm

/-- C8: in the assembler's line loop, a line whose leading token is `ORG`
(case-insensitively) relocates the cursor to the parsed address and emits
nothing; a line whose leading token is `DATA` with well-formed operands
contributes nothing at all (no code word, no listing entry, no cursor
move); and a `DATA` line with a malformed address or value aborts with the
DATA-specific error variant carrying the offending token. -/
theorem c8_directives (st : AsmAcc) (raw : List Char) (rest : List (List Char)) :
    (∀ tok ts a,
      splitWs (trimChars (stripComment raw)) = tok :: ts →
      tok.map upChar = "ORG".toList →
      parse_org_directive (trimChars (stripComment raw)) = .ok a →
      assembleLines st (raw :: rest) = assembleLines { st with current_addr := a } rest) ∧
    (∀ tok ts av,
      splitWs (trimChars (stripComment raw)) = tok :: ts →
      tok.map upChar = "DATA".toList →
      parse_data_directive (trimChars (stripComment raw)) = .ok av →
      assembleLines st (raw :: rest) = assembleLines st rest) ∧
    (∀ tok t1 t2 ts ea,
      splitWs (trimChars (stripComment raw)) = tok :: t1 :: t2 :: ts →
      tok.map upChar = "DATA".toList →
      parse_address t1 = .error ea →
      assembleLines st (raw :: rest) = .error (.InvalidDataAddress (String.mk t1))) ∧
    (∀ tok t1 t2 ts v1 ev,
      splitWs (trimChars (stripComment raw)) = tok :: t1 :: t2 :: ts →
      tok.map upChar = "DATA".toList →
      parse_address t1 = .ok v1 →
      parse_address t2 = .error ev →
      assembleLines st (raw :: rest) = .error (.InvalidDataValue (String.mk t2))) := by
  have key : ∀ tok ts, splitWs (trimChars (stripComment raw)) = tok :: ts →
      ¬ (trimChars (stripComment raw) = []) ∧
      (trimChars (stripComment raw)).map upChar =
        tok.map upChar ++
          ((trimChars (stripComment raw)).dropWhile (fun c => !isWs c)).map upChar := by
    intro tok ts hsp
    have hto := trim_token_structure (stripComment raw) tok ts hsp
    constructor
    · intro hnil
      rw [hnil] at hsp
      simp [splitWs, splitWsAux] at hsp
    · conv_lhs => rw [hto]
      rw [List.map_append]
  refine ⟨?_, ?_, ?_, ?_⟩
  · intro tok ts a hsp horg hparse
    obtain ⟨hne, hmap⟩ := key tok ts hsp
    have hpref : List.isPrefixOf "ORG".toList
        ((trimChars (stripComment raw)).map upChar) = true := by
      rw [hmap, horg]
      exact List.isPrefixOf_iff_prefix.mpr (List.prefix_append _ _)
    have hp : processLine st raw = .ok { st with current_addr := a } := by
      simp only [processLine]
      rw [if_neg hne, if_pos hpref, hparse]
    simp only [assembleLines, hp]
  · intro tok ts av hsp hdata hparse
    obtain ⟨hne, hmap⟩ := key tok ts hsp
    have hmap2 : (trimChars (stripComment raw)).map upChar =
        'D' :: ("ATA".toList ++
          ((trimChars (stripComment raw)).dropWhile (fun c => !isWs c)).map upChar) := by
      rw [hmap, hdata]
      rfl
    have hnotorg : ¬ (List.isPrefixOf "ORG".toList
        ((trimChars (stripComment raw)).map upChar) = true) := by
      rw [hmap2]
      simp [List.isPrefixOf]
    have hpref : List.isPrefixOf "DATA".toList
        ((trimChars (stripComment raw)).map upChar) = true := by
      rw [hmap, hdata]
      exact List.isPrefixOf_iff_prefix.mpr (List.prefix_append _ _)
    have hp : processLine st raw = .ok st := by
      simp only [processLine]
      rw [if_neg hne, if_neg hnotorg, if_pos hpref, hparse]
    simp only [assembleLines, hp]
  · intro tok t1 t2 ts ea hsp hdata hparse
    obtain ⟨hne, hmap⟩ := key tok (t1 :: t2 :: ts) hsp
    have hmap2 : (trimChars (stripComment raw)).map upChar =
        'D' :: ("ATA".toList ++
          ((trimChars (stripComment raw)).dropWhile (fun c => !isWs c)).map upChar) := by
      rw [hmap, hdata]
      rfl
    have hnotorg : ¬ (List.isPrefixOf "ORG".toList
        ((trimChars (stripComment raw)).map upChar) = true) := by
      rw [hmap2]
      simp [List.isPrefixOf]
    have hpref : List.isPrefixOf "DATA".toList
        ((trimChars (stripComment raw)).map upChar) = true := by
      rw [hmap, hdata]
      exact List.isPrefixOf_iff_prefix.mpr (List.prefix_append _ _)
    have hdd : parse_data_directive (trimChars (stripComment raw)) =
        .error (.InvalidDataAddress (String.mk t1)) := by
      unfold parse_data_directive
      rw [hsp]
      simp [hparse]
    have hp : processLine st raw = .error (.InvalidDataAddress (String.mk t1)) := by
      simp only [processLine]
      rw [if_neg hne, if_neg hnotorg, if_pos hpref, hdd]
    simp only [assembleLines, hp]
  · intro tok t1 t2 ts v1 ev hsp hdata hparse1 hparse2
    obtain ⟨hne, hmap⟩ := key tok (t1 :: t2 :: ts) hsp
    have hmap2 : (trimChars (stripComment raw)).map upChar =
        'D' :: ("ATA".toList ++
          ((trimChars (stripComment raw)).dropWhile (fun c => !isWs c)).map upChar) := by
      rw [hmap, hdata]
      rfl
    have hnotorg : ¬ (List.isPrefixOf "ORG".toList
        ((trimChars (stripComment raw)).map upChar) = true) := by
      rw [hmap2]
      simp [List.isPrefixOf]
    have hpref : List.isPrefixOf "DATA".toList
        ((trimChars (stripComment raw)).map upChar) = true := by
      rw [hmap, hdata]
      exact List.isPrefixOf_iff_prefix.mpr (List.prefix_append _ _)
    have hdd : parse_data_directive (trimChars (stripComment raw)) =
        .error (.InvalidDataValue (String.mk t2)) := by
      unfold parse_data_directive
      rw [hsp]
      simp [hparse1, hparse2]
    have hp : processLine st raw = .error (.InvalidDataValue (String.mk t2)) := by
      simp only [processLine]
      rw [if_neg hne, if_neg hnotorg, if_pos hpref, hdd]
    simp only [assembleLines, hp]

/-- Witness for C8 at a concrete ORG line. -/
theorem c8_directives_witness :
    assembleLines ⟨PROGRAM_START, [], []⟩ ["ORG 5".toList] =
      assembleLines ⟨5, [], []⟩ [] :=
  (c8_directives ⟨PROGRAM_START, [], []⟩ "ORG 5".toList []).1
    "ORG".toList [['5']] 5 (by decide) (by decide) (by decide)

end IBM1130
